import Mathlib

/-!
Verification development for the nexus-voice signalling server.

The repository ships three variants of the Socket.IO signalling handler:
* `src/nexus-voice/server/sockets.js` — embedded below as namespace `SockA`;
* the module-level variant (sockets.js with a module-level client map and
  a presence broadcast over `io.emit`) — namespace `SockB`;
* the presence-watcher variant (sockets.js with `presenceWatchers`,
  `subscribe-presence` / `unsubscribe-presence`) — namespace `SockC`.

JavaScript `Map` objects are embedded as insertion-ordered association
lists (`getA`, `setA`, `delA` mirror `Map.get`, `Map.set`, `Map.delete`).
A possibly-`undefined` JavaScript value is embedded as an `Option`;
a handler whose body would throw a `TypeError` (destructuring `undefined`,
or reading a property of `undefined`) is embedded as returning `.error ()`.
Handlers otherwise return the updated server state together with the list
of messages emitted (`socket.emit` / `socket.broadcast.emit` / `io.emit`
become one `Emit` entry per receiving socket).
-/

namespace NexusVoice

abbrev SocketId := Nat
abbrev PeerId := Nat

/-- Static ICE configuration (`ICE_SERVERS`, `ICE_POLICY` from config.js),
handed verbatim to clients inside the `welcome` message. -/
structure NetCfg where
  iceServers : List String
  icePolicy : String
deriving DecidableEq, Repr

/-- The opaque negotiation payload carried in a `signal` message's `data`
field.  `typ` embeds `data.type` and `candidate` embeds `data.candidate`,
each `none` when the field is absent; `rest` stands for the remaining
uninterpreted content. -/
structure SigData where
  typ : Option String
  candidate : Option String
  rest : String
deriving DecidableEq, Repr

/-- Payload of a client `signal` message: `{ targetPeerId, data }`, either
field possibly `undefined`. -/
structure SignalMsg where
  targetPeerId : Option PeerId
  data : Option SigData
deriving DecidableEq, Repr

/-- Payload of a client `join` message: `{ name }`. -/
structure JoinMsg where
  name : Option String
deriving DecidableEq, Repr

/-- Payload of a client `mute` message: `{ muted }`. -/
structure MuteMsg where
  muted : Option Bool
deriving DecidableEq, Repr

/-- One message emitted by the server to one receiving socket. -/
inductive Emit where
  | welcome (dst : SocketId) (peerId : PeerId) (cfg : NetCfg)
  | joinError (dst : SocketId) (message : String)
  | peerList (dst : SocketId) (list : List (PeerId × Option String))
  | peerJoined (dst : SocketId) (peerId : PeerId) (name : Option String)
  | peerLeft (dst : SocketId) (peerId : PeerId)
  | signalOut (dst : SocketId) (sender : PeerId) (data : Option SigData)
  | muteOut (dst : SocketId) (peerId : PeerId) (muted : Option Bool)
  | presenceNames (dst : SocketId) (names : List (Option String))
  | presencePairs (dst : SocketId) (list : List (PeerId × Option String))
deriving DecidableEq, Repr

deriving instance DecidableEq for Except

/-- Embeds `Map.get`: first value stored under the key, if any. -/
def getA {α β : Type} [DecidableEq α] : List (α × β) → α → Option β
  | [], _ => none
  | (a, b) :: t, k => if k = a then some b else getA t k

/-- Embeds `Map.set`: update in place when the key is present (JavaScript `Map`
keeps the original insertion position), append otherwise. -/
def setA {α β : Type} [DecidableEq α] : List (α × β) → α → β → List (α × β)
  | [], k, v => [(k, v)]
  | (a, b) :: t, k, v => if k = a then (a, v) :: t else (a, b) :: setA t k v

/-- Embeds `Map.delete`: remove the entry stored under the key. -/
def delA {α β : Type} [DecidableEq α] : List (α × β) → α → List (α × β)
  | [], _ => []
  | (a, b) :: t, k => if k = a then t else (a, b) :: delA t k

/-- The keys of the map, in insertion order. -/
def keysA {α β : Type} : List (α × β) → List α := List.map Prod.fst

/-- Server state shared by the handlers of one Socket.IO server.
`conns` is the set of currently connected sockets (maintained by the
transport); `clients` embeds `Map socket.id -> { peerId, name }`;
`peerToSocket` embeds `Map peerId -> socket.id`; `watchers` embeds the
`presenceWatchers` set of the `SockC` variant (unused by the others). -/
structure SrvState where
  conns : List SocketId
  clients : List (SocketId × PeerId × Option String)
  peerToSocket : List (PeerId × SocketId)
  watchers : List SocketId
deriving DecidableEq, Repr

/-- Embeds `Array.from(clients.values()).map(c => c.name)`. -/
def clientNames (st : SrvState) : List (Option String) := st.clients.map (fun e => e.2.2)

/-- Embeds the peer-list construction `clients.values()` mapped to `{ peerId, name }` pairs. -/
def rosterPairs (st : SrvState) : List (PeerId × Option String) := st.clients.map (fun e => e.2)

/-- The identities of all currently joined sessions. -/
def roster (st : SrvState) : List PeerId := st.clients.map (fun e => e.2.1)

/-- Embeds `Array.from(clients.values()).some(c => c.name === name)`. -/
def nameTaken (st : SrvState) (n : Option String) : Bool := st.clients.any (fun e => e.2.2 = n)

/-- Embeds `Lookup`: `peerToSocket.get(peerId)`. -/
def lookup (st : SrvState) (pid : PeerId) : Option SocketId := getA st.peerToSocket pid

/-- The state of a freshly started server: every map empty. -/
def initState : SrvState := ⟨[], [], [], []⟩

namespace SockA

/-- Embeds `socket.on('join')` of src/nexus-voice/server/sockets.js: stores
`{ peerId, name }` unconditionally (no uniqueness check), sends the full
peer list to the joiner and broadcasts `peer-joined` to everyone else. -/
def handleJoin (st : SrvState) (sid : SocketId) (pid : PeerId) (msg : Option JoinMsg) :
    Except Unit (SrvState × List Emit) :=
  match msg with
  | none => .error ()
  | some m =>
    let clients := setA st.clients sid (pid, m.name)
    let st' : SrvState := { st with clients := clients, peerToSocket := setA st.peerToSocket pid sid }
    .ok (st',
      [Emit.peerList sid (rosterPairs st')]
        ++ (st.conns.filter (fun t => t ≠ sid)).map (fun t => Emit.peerJoined t pid m.name))

/-- Embeds `socket.on('signal')` of src/nexus-voice/server/sockets.js: resolve
`targetPeerId` through `peerToSocket`; forward `{ from: peerId, data }`
when resolved, silently drop otherwise. -/
def handleSignal (st : SrvState) (pid : PeerId) (msg : Option SignalMsg) :
    Except Unit (SrvState × List Emit) :=
  match msg with
  | none => .error ()
  | some m =>
    match m.targetPeerId.bind (fun t => getA st.peerToSocket t) with
    | some tsid => .ok (st, [Emit.signalOut tsid pid m.data])
    | none => .ok (st, [])

/-- Embeds `socket.on('disconnect')` of src/nexus-voice/server/sockets.js: when
the socket had joined, remove it from both maps and broadcast `peer-left`;
otherwise do nothing. -/
def handleDisconnect (st : SrvState) (sid : SocketId) : SrvState × List Emit :=
  match getA st.clients sid with
  | some ci =>
    ({ st with clients := delA st.clients sid, peerToSocket := delA st.peerToSocket ci.1 },
      (st.conns.filter (fun t => t ≠ sid)).map (fun t => Emit.peerLeft t ci.1))
  | none => (st, [])

end SockA

namespace SockB

/-- Embeds `io.on('connection')` of the module-level variant: assign the fresh
`peerId`, emit `welcome` with the static ICE configuration, then emit the
current presence list (identity+name pairs) to the new socket.  The
registry maps are not touched. -/
def handleConn (cfg : NetCfg) (st : SrvState) (sid : SocketId) (pid : PeerId) :
    SrvState × List Emit :=
  (st, [Emit.welcome sid pid cfg, Emit.presencePairs sid (rosterPairs st)])

/-- Embeds `socket.on('join')` of the module-level variant: refuse when the name
is held, otherwise store the peer, send the peer list to the joiner,
broadcast `peer-joined` to the other sockets and broadcast the updated
presence list (identity+name pairs) to every connected socket via
`io.emit`. -/
def handleJoin (st : SrvState) (sid : SocketId) (pid : PeerId) (msg : Option JoinMsg) :
    Except Unit (SrvState × List Emit) :=
  match msg with
  | none => .error ()
  | some m =>
    if nameTaken st m.name then
      .ok (st, [Emit.joinError sid "الاسم مستخدم بالفعل. اختر اسماً آخر."])
    else
      let clients := setA st.clients sid (pid, m.name)
      let st' : SrvState := { st with clients := clients, peerToSocket := setA st.peerToSocket pid sid }
      .ok (st',
        [Emit.peerList sid (rosterPairs st')]
          ++ (st.conns.filter (fun t => t ≠ sid)).map (fun t => Emit.peerJoined t pid m.name)
          ++ st.conns.map (fun t => Emit.presencePairs t (rosterPairs st')))

end SockB

namespace SockC

/-- Embeds `socket.on('subscribe-presence')`: add the socket to the watcher set
and immediately send it the current list of active names. -/
def handleSub (st : SrvState) (sid : SocketId) : SrvState × List Emit :=
  ({ st with watchers := if sid ∈ st.watchers then st.watchers else st.watchers ++ [sid] },
    [Emit.presenceNames sid (clientNames st)])

/-- Embeds `socket.on('unsubscribe-presence')`: remove the socket from the
watcher set. -/
def handleUnsub (st : SrvState) (sid : SocketId) : SrvState × List Emit :=
  ({ st with watchers := st.watchers.erase sid }, [])

/-- The state stored by a successful join: `clients.set(socket.id,
{ peerId, name })` and `peerToSocket.set(peerId, socket.id)`. -/
def joinOkState (st : SrvState) (sid : SocketId) (pid : PeerId) (name : Option String) :
    SrvState :=
  { st with clients := setA st.clients sid (pid, name),
            peerToSocket := setA st.peerToSocket pid sid }

/-- The messages emitted by a successful join of the presence-watcher
variant: the peer list to the joiner, `peer-joined` to every other
connected socket, and the updated name list to every presence watcher. -/
def joinOkEmits (st : SrvState) (sid : SocketId) (pid : PeerId) (name : Option String) :
    List Emit :=
  [Emit.peerList sid (rosterPairs (joinOkState st sid pid name))]
    ++ (st.conns.filter (fun t => t ≠ sid)).map (fun t => Emit.peerJoined t pid name)
    ++ st.watchers.map (fun w => Emit.presenceNames w (clientNames (joinOkState st sid pid name)))

/-- Embeds `socket.on('join')` of the presence-watcher variant: refuse when the
name is held by any client, otherwise store the peer, send the peer list
to the joiner, broadcast `peer-joined` to the other sockets and send the
updated name list to every presence watcher. -/
def handleJoin (st : SrvState) (sid : SocketId) (pid : PeerId) (msg : Option JoinMsg) :
    Except Unit (SrvState × List Emit) :=
  match msg with
  | none => .error ()
  | some m =>
    if nameTaken st m.name then
      .ok (st, [Emit.joinError sid "الاسم مستخدم بالفعل"])
    else
      .ok (joinOkState st sid pid m.name, joinOkEmits st sid pid m.name)

/-- The messages emitted by `socket.broadcast.emit('mute', ...)`: one per
connected socket other than the sender. -/
def muteEmits (st : SrvState) (sid : SocketId) (pid : PeerId) (muted : Option Bool) :
    List Emit :=
  (st.conns.filter (fun t => t ≠ sid)).map (fun t => Emit.muteOut t pid muted)

/-- Embeds `socket.on('mute')` of the presence-watcher variant: broadcast
`{ peerId, muted }` to every connected socket except the sender, using the
closure `peerId` rather than anything in the payload. -/
def handleMute (st : SrvState) (sid : SocketId) (pid : PeerId) (msg : Option MuteMsg) :
    Except Unit (SrvState × List Emit) :=
  match msg with
  | none => .error ()
  | some m => .ok (st, muteEmits st sid pid m.muted)

/-- Embeds `socket.on('signal')` of the presence-watcher variant: resolve
`targetPeerId`; when resolved, the logging line evaluates
`data && data.type ? data.type : (data.candidate ? ... : ...)`, which
reads `data.candidate` — a `TypeError` when `data` is `undefined` —
then forwards `{ from: peerId, data }`. -/
def handleSignal (st : SrvState) (pid : PeerId) (msg : Option SignalMsg) :
    Except Unit (SrvState × List Emit) :=
  match msg with
  | none => .error ()
  | some m =>
    match m.targetPeerId.bind (fun t => getA st.peerToSocket t) with
    | some tsid =>
      match m.data with
      | none => .error ()
      | some _ => .ok (st, [Emit.signalOut tsid pid m.data])
    | none => .ok (st, [])

/-- Embeds `socket.on('disconnect')` of the presence-watcher variant: when the
socket had joined, remove it from both maps, broadcast `peer-left` and
send the remaining names to every presence watcher; in every case remove
the socket from the watcher set. -/
def handleDisconnect (st : SrvState) (sid : SocketId) : SrvState × List Emit :=
  match getA st.clients sid with
  | some ci =>
    let st' : SrvState :=
      { st with clients := delA st.clients sid, peerToSocket := delA st.peerToSocket ci.1 }
    ({ st' with watchers := st'.watchers.erase sid },
      (st.conns.filter (fun t => t ≠ sid)).map (fun t => Emit.peerLeft t ci.1)
        ++ st.watchers.map (fun w => Emit.presenceNames w (clientNames st')))
  | none => ({ st with watchers := st.watchers.erase sid }, [])

end SockC

/-- The names currently stored in a client map. -/
def namesOf (m : List (SocketId × PeerId × Option String)) : List (Option String) :=
  m.map (fun e => e.2.2)

/-- One registry-mutating operation of the abstract interface: a `join`
request from a connected socket, or the disconnect of a socket.  The
socket's server-assigned identity (the closure `peerId`) is `pidOf sid`. -/
inductive Op where
  | join (sid : SocketId) (name : Option String)
  | leave (sid : SocketId)
deriving DecidableEq, Repr

/-- The registry effect of one operation, given by the handlers of the
presence-watcher variant: a `join` message carrying a payload never
fails, and its `.ok` state is taken; a disconnect applies
`handleDisconnect`. -/
def regStep (pidOf : SocketId → PeerId) (st : SrvState) : Op → SrvState
  | .join sid name =>
    match SockC.handleJoin st sid (pidOf sid) (some ⟨name⟩) with
    | .ok (st', _) => st'
    | .error _ => st
  | .leave sid => (SockC.handleDisconnect st sid).1

/-- The registry state after a sequence of operations on a fresh server. -/
def run (pidOf : SocketId → PeerId) (l : List Op) : SrvState :=
  l.foldl (regStep pidOf) initState

/-- Add an element at the end unless it is already present. -/
def insertNew (l : List SocketId) (sid : SocketId) : List SocketId :=
  if sid ∈ l then l else l ++ [sid]

/-- Specification-level bookkeeping for the roster claim: the set of
sockets whose `join` succeeded (the requested name was free when the call
was processed) and that have not since disconnected.  The implementation
state `st` is replayed only to decide which joins succeed. -/
def joinedSids (pidOf : SocketId → PeerId) :
    SrvState → List SocketId → List Op → List SocketId
  | _, acc, [] => acc
  | st, acc, .join sid name :: rest =>
    joinedSids pidOf (regStep pidOf st (.join sid name))
      (if nameTaken st name then acc else insertNew acc sid) rest
  | st, acc, .leave sid :: rest =>
    joinedSids pidOf (regStep pidOf st (.leave sid)) (acc.erase sid) rest

/-- Registry invariants maintained by every reachable state: stored
identities come from the per-connection assignment, socket keys and
identity keys are duplicate-free, and at most one live session holds any
given name. -/
structure Inv (pidOf : SocketId → PeerId) (st : SrvState) : Prop where
  pid : ∀ e ∈ st.clients, e.2.1 = pidOf e.1
  keys : (keysA st.clients).Nodup
  names : (namesOf st.clients).Nodup
  pts : (keysA st.peerToSocket).Nodup

/-- A server with sockets 0 and 1 connected, where socket 0 (identity
100) has joined as "Ali". -/
def stA1 : SrvState := ⟨[0, 1], [(0, 100, some "Ali")], [(100, 0)], []⟩

/-- The state reached from `stA1` when socket 1 (identity 101) also joins
as "Ali" under the handler that never checks name uniqueness. -/
def stA1dup : SrvState :=
  ⟨[0, 1], [(0, 100, some "Ali"), (1, 101, some "Ali")], [(100, 0), (101, 1)], []⟩

/-- A freshly started server with a single connected socket 0. -/
def stB0 : SrvState := ⟨[0], [], [], []⟩

/-- The default ICE configuration built by config.js with no TURN
credentials: one STUN entry and the `all` transport policy. -/
def cfg0 : NetCfg := ⟨["stun:stun.l.google.com:19302"], "all"⟩

/-- A server with sockets 0 and 1 connected and socket 0 joined as "Ali";
no socket ever subscribed to the presence feed. -/
def stB1 : SrvState := ⟨[0, 1], [(0, 100, some "Ali")], [(100, 0)], []⟩

/-- A server where socket 1 (identity 200) has joined as "Bob" and socket
0 is connected but not joined. -/
def stC3 : SrvState := ⟨[0, 1], [(1, 200, some "Bob")], [(200, 1)], []⟩

/-- The state reached from `stB1` when socket 1 joins as "Azzo". -/
def stB1after : SrvState :=
  ⟨[0, 1], [(0, 100, some "Ali"), (1, 101, some "Azzo")], [(100, 0), (101, 1)], []⟩

/-- The messages that the module-level variant emits for that join. -/
def emsB1 : List Emit :=
  [Emit.peerList 1 [(100, some "Ali"), (101, some "Azzo")],
   Emit.peerJoined 0 101 (some "Azzo"),
   Emit.presencePairs 0 [(100, some "Ali"), (101, some "Azzo")],
   Emit.presencePairs 1 [(100, some "Ali"), (101, some "Azzo")]]

/-- A server where socket 1 (identity 200) has joined as "Bob" and socket
0 is connected and subscribed to the presence feed. -/
def stW9 : SrvState := ⟨[0, 1], [(1, 200, some "Bob")], [(200, 1)], [0]⟩

/-- The state reached from `stW9` when watcher socket 0 (identity 100)
joins as "Ali". -/
def stW9after : SrvState :=
  ⟨[0, 1], [(1, 200, some "Bob"), (0, 100, some "Ali")], [(200, 1), (100, 0)], [0]⟩

/-- The messages the presence-watcher variant emits for that join. -/
def emsW9 : List Emit :=
  [Emit.peerList 0 [(200, some "Bob"), (100, some "Ali")],
   Emit.peerJoined 1 100 (some "Ali"),
   Emit.presenceNames 0 [some "Bob", some "Ali"]]

/-- A concrete negotiation payload. -/
def dW1 : SigData := ⟨some "offer", none, "sdp-a"⟩

/-- A second concrete negotiation payload, carrying different content (as
a stand-in for an attempt to smuggle a forged sender). -/
def dW2 : SigData := ⟨some "offer", none, "forged-from"⟩

/-- Concrete identity assignment used by the closed witnesses. -/
def wPid : SocketId → PeerId := fun s => s + 100

/-- A concrete operation sequence: two sockets race for "Ali", a socket
that never joined disconnects, then the loser joins as "Azzo". -/
def wOps : List Op :=
  [Op.join 0 (some "Ali"), Op.join 1 (some "Ali"), Op.leave 2, Op.join 1 (some "Azzo")]

theorem getA_cons_self {α β : Type} [DecidableEq α] (a : α) (b : β) (t : List (α × β)) :
    getA ((a, b) :: t) a = some b := by simp [getA]

theorem getA_cons_ne {α β : Type} [DecidableEq α] {k a : α} (b : β) (t : List (α × β))
    (h : k ≠ a) : getA ((a, b) :: t) k = getA t k := by simp [getA, h]

theorem setA_cons_self {α β : Type} [DecidableEq α] (a : α) (b v : β) (t : List (α × β)) :
    setA ((a, b) :: t) a v = (a, v) :: t := by simp [setA]

theorem setA_cons_ne {α β : Type} [DecidableEq α] {k a : α} (b v : β) (t : List (α × β))
    (h : k ≠ a) : setA ((a, b) :: t) k v = (a, b) :: setA t k v := by simp [setA, h]

theorem delA_cons_self {α β : Type} [DecidableEq α] (a : α) (b : β) (t : List (α × β)) :
    delA ((a, b) :: t) a = t := by simp [delA]

theorem delA_cons_ne {α β : Type} [DecidableEq α] {k a : α} (b : β) (t : List (α × β))
    (h : k ≠ a) : delA ((a, b) :: t) k = (a, b) :: delA t k := by simp [delA, h]

theorem getA_eq_none_iff {α β : Type} [DecidableEq α] (m : List (α × β)) (k : α) :
    getA m k = none ↔ k ∉ keysA m := by
  induction m with
  | nil => simp [getA, keysA]
  | cons e t ih =>
    obtain ⟨a, b⟩ := e
    by_cases h : k = a
    · simp [getA, keysA, h]
    · simpa [getA, keysA, h] using ih

theorem getA_setA_self {α β : Type} [DecidableEq α] (m : List (α × β)) (k : α) (v : β) :
    getA (setA m k v) k = some v := by
  induction m with
  | nil => simp [getA, setA]
  | cons e t ih =>
    obtain ⟨a, b⟩ := e
    by_cases h : k = a
    · simp [getA, setA, h]
    · simp [getA, setA, h, ih]

theorem keysA_setA {α β : Type} [DecidableEq α] (m : List (α × β)) (k : α) (v : β) :
    keysA (setA m k v) = if k ∈ keysA m then keysA m else keysA m ++ [k] := by
  induction m with
  | nil => simp [setA, keysA]
  | cons e t ih =>
    obtain ⟨a, b⟩ := e
    by_cases h : k = a
    · simp [setA, keysA, h]
    · simp only [setA, if_neg h, keysA, List.map_cons] at ih ⊢
      rw [ih]
      by_cases hm : k ∈ List.map Prod.fst t <;> simp [hm, h]

theorem keysA_delA {α β : Type} [DecidableEq α] (m : List (α × β)) (k : α) :
    keysA (delA m k) = (keysA m).erase k := by
  induction m with
  | nil => simp [delA, keysA]
  | cons e t ih =>
    obtain ⟨a, b⟩ := e
    by_cases h : k = a
    · subst h
      simp [delA, keysA, List.erase_cons_head]
    · simp only [delA, if_neg h, keysA, List.map_cons] at ih ⊢
      rw [ih, List.erase_cons_tail (by simpa using fun hc => h hc.symm)]

theorem nodup_keysA_setA {α β : Type} [DecidableEq α] (m : List (α × β)) (k : α) (v : β)
    (h : (keysA m).Nodup) : (keysA (setA m k v)).Nodup := by
  rw [keysA_setA]
  by_cases hm : k ∈ keysA m
  · simpa [hm] using h
  · rw [if_neg hm]
    refine List.Nodup.append h (List.nodup_singleton k) ?_
    intro x hx hk
    simp only [List.mem_singleton] at hk
    subst hk
    exact hm hx

theorem nodup_keysA_delA {α β : Type} [DecidableEq α] (m : List (α × β)) (k : α)
    (h : (keysA m).Nodup) : (keysA (delA m k)).Nodup := by
  rw [keysA_delA]; exact h.erase k

theorem getA_delA_self {α β : Type} [DecidableEq α] (m : List (α × β)) (k : α)
    (h : (keysA m).Nodup) : getA (delA m k) k = none := by
  induction m with
  | nil => simp [delA, getA]
  | cons e t ih =>
    obtain ⟨a, b⟩ := e
    simp only [keysA, List.map_cons, List.nodup_cons] at h
    by_cases hk : k = a
    · subst hk
      simp only [delA, if_pos rfl]
      rw [getA_eq_none_iff]
      exact h.1
    · rw [delA_cons_ne b t hk, getA_cons_ne b (delA t k) hk]
      exact ih h.2

theorem mem_setA {α β : Type} [DecidableEq α] {m : List (α × β)} {k : α} {v : β}
    {e : α × β} (h : e ∈ setA m k v) : e ∈ m ∨ e = (k, v) := by
  induction m with
  | nil => simpa [setA] using h
  | cons hd t ih =>
    obtain ⟨a, b⟩ := hd
    by_cases hk : k = a
    · subst hk
      simp [setA] at h
      rcases h with h | h
      · exact Or.inr (by simp [h])
      · exact Or.inl (by simp [h])
    · simp [setA, hk] at h
      rcases h with h | h
      · exact Or.inl (by simp [h])
      · rcases ih h with h' | h'
        · exact Or.inl (by simp [h'])
        · exact Or.inr h'

theorem self_mem_setA {α β : Type} [DecidableEq α] (m : List (α × β)) (k : α) (v : β) :
    (k, v) ∈ setA m k v := by
  induction m with
  | nil => simp [setA]
  | cons hd t ih =>
    obtain ⟨a, b⟩ := hd
    by_cases hk : k = a
    · subst hk
      simp [setA]
    · simp only [setA, if_neg hk, List.mem_cons]
      exact Or.inr ih

theorem mem_delA {α β : Type} [DecidableEq α] {m : List (α × β)} {k : α}
    {e : α × β} (h : e ∈ delA m k) : e ∈ m := by
  induction m with
  | nil => simp [delA] at h
  | cons hd t ih =>
    obtain ⟨a, b⟩ := hd
    by_cases hk : k = a
    · simp only [delA, if_pos hk] at h
      exact List.mem_cons_of_mem _ h
    · simp only [delA, if_neg hk, List.mem_cons] at h
      rcases h with h | h
      · exact h ▸ List.mem_cons_self _ _
      · exact List.mem_cons_of_mem _ (ih h)

theorem getA_some_mem {α β : Type} [DecidableEq α] {m : List (α × β)} {k : α} {v : β}
    (h : getA m k = some v) : (k, v) ∈ m := by
  induction m with
  | nil => simp [getA] at h
  | cons hd t ih =>
    obtain ⟨a, b⟩ := hd
    by_cases hk : k = a
    · subst hk
      rw [getA_cons_self, Option.some.injEq] at h
      subst h
      exact List.mem_cons_self _ _
    · rw [getA_cons_ne b t hk] at h
      exact List.mem_cons_of_mem _ (ih h)

theorem nameTaken_iff (st : SrvState) (n : Option String) :
    nameTaken st n = true ↔ n ∈ namesOf st.clients := by
  simp only [nameTaken, List.any_eq_true, namesOf, List.mem_map, decide_eq_true_eq]

theorem getA_some_name_mem {m : List (SocketId × PeerId × Option String)}
    {k : SocketId} {p : PeerId} {n : Option String}
    (h : getA m k = some (p, n)) : n ∈ namesOf m := by
  have := getA_some_mem h
  exact List.mem_map.mpr ⟨(k, p, n), this, rfl⟩

theorem mem_namesOf_setA {m : List (SocketId × PeerId × Option String)}
    {k : SocketId} {p : PeerId} {n x : Option String}
    (h : x ∈ namesOf (setA m k (p, n))) : x ∈ namesOf m ∨ x = n := by
  simp only [namesOf, List.mem_map] at h
  obtain ⟨e, he, hx⟩ := h
  rcases mem_setA he with h' | h'
  · exact Or.inl (List.mem_map.mpr ⟨e, h', hx⟩)
  · subst h'
    exact Or.inr hx.symm

theorem namesOf_nodup_setA {m : List (SocketId × PeerId × Option String)}
    {k : SocketId} {p : PeerId} {n : Option String}
    (hnd : (namesOf m).Nodup) (hfree : n ∉ namesOf m) :
    (namesOf (setA m k (p, n))).Nodup := by
  induction m with
  | nil => simp [setA, namesOf]
  | cons hd t ih =>
    obtain ⟨a, q, b⟩ := hd
    simp only [namesOf, List.map_cons, List.nodup_cons] at hnd
    simp only [namesOf, List.map_cons, List.mem_cons, not_or] at hfree
    by_cases hk : k = a
    · subst hk
      rw [setA_cons_self]
      simp only [namesOf, List.map_cons, List.nodup_cons]
      exact ⟨hfree.2, hnd.2⟩
    · have hb : b ∉ namesOf (setA t k (p, n)) := by
        intro hbad
        rcases mem_namesOf_setA hbad with h' | h'
        · exact hnd.1 h'
        · exact hfree.1 h'.symm
      rw [setA_cons_ne (q, b) (p, n) t hk]
      simp only [namesOf, List.map_cons, List.nodup_cons]
      exact ⟨hb, ih hnd.2 hfree.2⟩

theorem namesOf_delA_not_mem {m : List (SocketId × PeerId × Option String)}
    {k : SocketId} {p : PeerId} {n : Option String}
    (hnd : (namesOf m).Nodup) (h : getA m k = some (p, n)) :
    n ∉ namesOf (delA m k) := by
  induction m with
  | nil => simp [getA] at h
  | cons hd t ih =>
    obtain ⟨a, q, b⟩ := hd
    simp only [namesOf, List.map_cons, List.nodup_cons] at hnd
    by_cases hk : k = a
    · subst hk
      rw [getA_cons_self, Option.some.injEq, Prod.mk.injEq] at h
      rw [delA_cons_self, ← h.2]
      exact hnd.1
    · rw [getA_cons_ne (q, b) t hk] at h
      have hmem : n ∈ namesOf t := getA_some_name_mem h
      have hbn : b ≠ n := fun hc => hnd.1 (hc ▸ hmem)
      rw [delA_cons_ne (q, b) t hk]
      simp only [namesOf, List.map_cons, List.mem_cons, not_or]
      exact ⟨fun hc => hbn hc.symm, ih hnd.2 h⟩

theorem delA_sublist {α β : Type} [DecidableEq α] (m : List (α × β)) (k : α) :
    (delA m k).Sublist m := by
  induction m with
  | nil => simp [delA]
  | cons hd t ih =>
    obtain ⟨a, b⟩ := hd
    by_cases hk : k = a
    · rw [delA, if_pos hk]
      exact List.sublist_cons_self _ _
    · rw [delA_cons_ne b t hk]
      exact ih.cons₂ _

theorem regStep_join_taken {pidOf : SocketId → PeerId} {st : SrvState}
    {sid : SocketId} {name : Option String} (h : nameTaken st name = true) :
    regStep pidOf st (.join sid name) = st := by
  simp [regStep, SockC.handleJoin, h]

theorem regStep_join_free {pidOf : SocketId → PeerId} {st : SrvState}
    {sid : SocketId} {name : Option String} (h : nameTaken st name = false) :
    regStep pidOf st (.join sid name) =
      { st with clients := setA st.clients sid (pidOf sid, name),
                peerToSocket := setA st.peerToSocket (pidOf sid) sid } := by
  simp [regStep, SockC.handleJoin, SockC.joinOkState, h]

theorem regStep_leave_not_joined {pidOf : SocketId → PeerId} {st : SrvState}
    {sid : SocketId} (h : getA st.clients sid = none) :
    regStep pidOf st (.leave sid) = { st with watchers := st.watchers.erase sid } := by
  simp [regStep, SockC.handleDisconnect, h]

theorem regStep_leave_joined {pidOf : SocketId → PeerId} {st : SrvState}
    {sid : SocketId} {ci : PeerId × Option String} (h : getA st.clients sid = some ci) :
    regStep pidOf st (.leave sid) =
      { st with clients := delA st.clients sid,
                peerToSocket := delA st.peerToSocket ci.1,
                watchers := st.watchers.erase sid } := by
  simp [regStep, SockC.handleDisconnect, h]

theorem keysA_regStep_join {pidOf : SocketId → PeerId} (st : SrvState)
    (sid : SocketId) (name : Option String) :
    keysA (regStep pidOf st (.join sid name)).clients =
      if nameTaken st name then keysA st.clients else insertNew (keysA st.clients) sid := by
  by_cases h : nameTaken st name
  · simp [regStep_join_taken h, h]
  · rw [if_neg h, regStep_join_free (by simpa using h)]
    simpa [insertNew] using keysA_setA st.clients sid (pidOf sid, name)

theorem keysA_regStep_leave {pidOf : SocketId → PeerId} (st : SrvState) (sid : SocketId) :
    keysA (regStep pidOf st (.leave sid)).clients = (keysA st.clients).erase sid := by
  cases hci : getA st.clients sid with
  | none =>
    rw [regStep_leave_not_joined hci]
    have : sid ∉ keysA st.clients := (getA_eq_none_iff _ _).mp hci
    simp [List.erase_of_not_mem this]
  | some ci =>
    rw [regStep_leave_joined hci]
    simpa using keysA_delA st.clients sid

theorem keysA_foldl_eq_joinedSids (pidOf : SocketId → PeerId) (l : List Op) :
    ∀ st acc, keysA st.clients = acc →
      keysA (l.foldl (regStep pidOf) st).clients = joinedSids pidOf st acc l := by
  induction l with
  | nil => intro st acc h; simpa [joinedSids] using h
  | cons op rest ih =>
    intro st acc h
    cases op with
    | join sid name =>
      rw [List.foldl_cons, joinedSids]
      refine ih _ _ ?_
      rw [keysA_regStep_join, h]
    | leave sid =>
      rw [List.foldl_cons, joinedSids]
      refine ih _ _ ?_
      rw [keysA_regStep_leave, h]

theorem inv_regStep {pidOf : SocketId → PeerId} {st : SrvState} (hinv : Inv pidOf st)
    (op : Op) : Inv pidOf (regStep pidOf st op) := by
  cases op with
  | join sid name =>
    by_cases h : nameTaken st name
    · rw [regStep_join_taken h]; exact hinv
    · rw [regStep_join_free (by simpa using h)]
      have hfree : name ∉ namesOf st.clients := fun hc =>
        h ((nameTaken_iff st name).mpr hc)
      refine ⟨?_, ?_, ?_, ?_⟩
      · intro e he
        rcases mem_setA he with h' | h'
        · exact hinv.pid e h'
        · subst h'; rfl
      · exact nodup_keysA_setA _ _ _ hinv.keys
      · exact namesOf_nodup_setA hinv.names hfree
      · exact nodup_keysA_setA _ _ _ hinv.pts
  | leave sid =>
      cases hci : getA st.clients sid with
      | none => rw [regStep_leave_not_joined hci]; exact ⟨hinv.pid, hinv.keys, hinv.names, hinv.pts⟩
      | some ci =>
        rw [regStep_leave_joined hci]
        refine ⟨?_, ?_, ?_, ?_⟩
        · intro e he
          exact hinv.pid e (mem_delA he)
        · exact nodup_keysA_delA _ _ hinv.keys
        · exact List.Nodup.sublist ((delA_sublist st.clients sid).map _) hinv.names
        · exact nodup_keysA_delA _ _ hinv.pts

theorem inv_init (pidOf : SocketId → PeerId) : Inv pidOf initState := by
  refine ⟨?_, ?_, ?_, ?_⟩ <;> simp [initState, keysA, namesOf]

theorem inv_foldl {pidOf : SocketId → PeerId} (l : List Op) :
    ∀ st : SrvState, Inv pidOf st → Inv pidOf (l.foldl (regStep pidOf) st) := by
  induction l with
  | nil => intro st h; simpa using h
  | cons op rest ih =>
    intro st h
    rw [List.foldl_cons]
    exact ih _ (inv_regStep h op)

theorem inv_run (pidOf : SocketId → PeerId) (l : List Op) : Inv pidOf (run pidOf l) :=
  inv_foldl l initState (inv_init pidOf)

theorem roster_eq_map_keys {pidOf : SocketId → PeerId} {st : SrvState}
    (h : ∀ e ∈ st.clients, e.2.1 = pidOf e.1) :
    roster st = (keysA st.clients).map pidOf := by
  simp only [roster, keysA, List.map_map]
  exact List.map_congr_left h

theorem mem_setA_of_mem {α β : Type} [DecidableEq α] {m : List (α × β)} {k : α} {v : β}
    {e : α × β} (h : e ∈ m) (hne : getA m k ≠ some e.2) : e ∈ setA m k v := by
  induction m with
  | nil => simp at h
  | cons hd t ih =>
    obtain ⟨a, b⟩ := hd
    by_cases hk : k = a
    · subst hk
      rw [setA_cons_self]
      rw [getA_cons_self] at hne
      rcases List.mem_cons.mp h with h' | h'
      · exact absurd (by rw [h']) hne
      · exact List.mem_cons_of_mem _ h'
    · rw [setA_cons_ne b v t hk]
      rw [getA_cons_ne b t hk] at hne
      rcases List.mem_cons.mp h with h' | h'
      · exact h' ▸ List.mem_cons_self _ _
      · exact List.mem_cons_of_mem _ (ih h' hne)

/-- C8: after every finite sequence of Join and Leave operations starting
from the empty registry, `Roster()` is exactly the set of identities of
sockets that successfully joined and have not since left: it is
duplicate-free and an identity appears in it precisely when it belongs to
a socket in the specification-level joined set. -/
theorem c8_roster_exact (pidOf : SocketId → PeerId) (hinj : Function.Injective pidOf)
    (l : List Op) :
    (roster (run pidOf l)).Nodup ∧
    ∀ pid, pid ∈ roster (run pidOf l) ↔
      ∃ sid, pid = pidOf sid ∧ sid ∈ joinedSids pidOf initState [] l := by
  have hinv := inv_run pidOf l
  have hkeys : keysA (run pidOf l).clients = joinedSids pidOf initState [] l :=
    keysA_foldl_eq_joinedSids pidOf l initState [] (by simp [initState, keysA])
  have hroster : roster (run pidOf l) = (keysA (run pidOf l).clients).map pidOf :=
    roster_eq_map_keys hinv.pid
  constructor
  · rw [hroster]
    exact hinv.keys.map hinj
  · intro pid
    rw [hroster, hkeys]
    constructor
    · intro h
      obtain ⟨sid, hmem, hpid⟩ := List.mem_map.mp h
      exact ⟨sid, hpid.symm, hmem⟩
    · rintro ⟨sid, hpid, hmem⟩
      exact List.mem_map.mpr ⟨sid, hmem, hpid.symm⟩

/-- Closed witness for C8 at a concrete race for the name "Ali". -/
theorem c8_roster_exact_witness :
    (roster (run wPid wOps)).Nodup :=
  (c8_roster_exact wPid (fun a b h => by simpa [wPid] using h) wOps).1

/-- C6: the disconnect handler is idempotent on the registry state, and
for a socket that never joined (or was already evicted) it is a no-op
that changes nothing and emits nothing. -/
theorem c6_leave_idempotent (st : SrvState) (sid : SocketId)
    (hnd : (keysA st.clients).Nodup) :
    (SockA.handleDisconnect (SockA.handleDisconnect st sid).1 sid).1
      = (SockA.handleDisconnect st sid).1 ∧
    (getA st.clients sid = none → SockA.handleDisconnect st sid = (st, [])) := by
  refine ⟨?_, fun h => by simp [SockA.handleDisconnect, h]⟩
  cases hci : getA st.clients sid with
  | none => simp [SockA.handleDisconnect, hci]
  | some ci =>
    have h1 : (SockA.handleDisconnect st sid).1 =
        { st with clients := delA st.clients sid,
                  peerToSocket := delA st.peerToSocket ci.1 } := by
      simp [SockA.handleDisconnect, hci]
    rw [h1]
    simp [SockA.handleDisconnect, getA_delA_self st.clients sid hnd]

/-- Closed witness for C6: disconnecting socket 0 of `stA1` twice equals
disconnecting it once, and disconnecting the never-joined socket 5 is a
pure no-op. -/
theorem c6_leave_idempotent_witness :
    ((SockA.handleDisconnect (SockA.handleDisconnect stA1 0).1 0).1
      = (SockA.handleDisconnect stA1 0).1) ∧
    SockA.handleDisconnect stA1 5 = (stA1, []) :=
  ⟨(c6_leave_idempotent stA1 0 (by decide)).1,
   (c6_leave_idempotent stA1 5 (by decide)).2 (by decide)⟩

/-- C5: for a `signal` message carrying a target, the handler of
src/nexus-voice/server/sockets.js delivers exactly one message
`{from, data}` with the payload unchanged when the target resolves in the
registry, and silently drops the message (no delivery, no reply to the
sender) when it does not; the registry state is unchanged in both cases. -/
theorem c5_signal_routing (st : SrvState) (pid : PeerId) (m : SignalMsg) :
    (∀ tpid tsid, m.targetPeerId = some tpid → getA st.peerToSocket tpid = some tsid →
      SockA.handleSignal st pid (some m) = .ok (st, [Emit.signalOut tsid pid m.data])) ∧
    (∀ tpid, m.targetPeerId = some tpid → getA st.peerToSocket tpid = none →
      SockA.handleSignal st pid (some m) = .ok (st, [])) := by
  constructor
  · intro tpid tsid ht hg
    simp [SockA.handleSignal, ht, hg]
  · intro tpid ht hg
    simp [SockA.handleSignal, ht, hg]

/-- Closed witness for C5: in `stA1` a signal addressed to identity 100 is
delivered to socket 0 unchanged, and one addressed to the departed
identity 999 is dropped. -/
theorem c5_signal_routing_witness :
    SockA.handleSignal stA1 101 (some ⟨some 100, some ⟨some "offer", none, "sdp"⟩⟩)
      = .ok (stA1, [Emit.signalOut 0 101 (some ⟨some "offer", none, "sdp"⟩)]) ∧
    SockA.handleSignal stA1 101 (some ⟨some 999, some ⟨some "offer", none, "sdp"⟩⟩)
      = .ok (stA1, []) :=
  ⟨(c5_signal_routing stA1 101 ⟨some 100, some ⟨some "offer", none, "sdp"⟩⟩).1
      100 0 rfl (by decide),
   (c5_signal_routing stA1 101 ⟨some 999, some ⟨some "offer", none, "sdp"⟩⟩).2
      999 rfl (by decide)⟩

/-- C2 (amended): the connection handler never fails, leaves the registry
maps untouched — the session entry is created only by a later successful
join — and emits a `welcome` carrying the freshly generated identity and
the static ICE configuration verbatim, followed by the current presence
list to the connecting socket. -/
theorem c2_attach (cfg : NetCfg) (st : SrvState) (sid : SocketId) (pid : PeerId) :
    SockB.handleConn cfg st sid pid
      = (st, [Emit.welcome sid pid cfg, Emit.presencePairs sid (rosterPairs st)]) ∧
    (SockB.handleConn cfg st sid pid).1.clients = st.clients :=
  ⟨rfl, rfl⟩

/-- Counterexample for C2 as stated: after a fresh socket 0 attaches to an
empty server, the registry still holds no session entry for it — attach
does not create a session entry with no display name. -/
theorem c2_attach_counterexample :
    (SockB.handleConn cfg0 stB0 0 100).1.clients = [] ∧
    getA (SockB.handleConn cfg0 stB0 0 100).1.clients 0 = none ∧
    (SockB.handleConn cfg0 stB0 0 100).2
      = [Emit.welcome 0 100 cfg0, Emit.presencePairs 0 []] := by
  refine ⟨rfl, rfl, rfl⟩

/-- Counterexample for C1 as stated: in the handler of
src/nexus-voice/server/sockets.js, a join requesting "Ali" while "Ali" is
already held by the live session of socket 0 does not return NameTaken:
it mutates the registry, admits a second session named "Ali", and reports
the roster to the caller. -/
theorem c1_join_counterexample :
    nameTaken stA1 (some "Ali") = true ∧
    SockA.handleJoin stA1 1 101 (some ⟨some "Ali"⟩)
      = .ok (stA1dup,
          [Emit.peerList 1 [(100, some "Ali"), (101, some "Ali")],
           Emit.peerJoined 0 101 (some "Ali")]) ∧
    stA1dup ≠ stA1 := by
  refine ⟨by decide, by decide, by decide⟩

/-- C1 (amended): in both variants that check uniqueness — the
presence-watcher handler and the module-level handler — a join whose
requested name is currently held returns the NameTaken error and performs
no mutation; a join whose name is free updates the registry (both
variants store the same update), reports a roster snapshot that includes
the caller, and leaves the name taken; and the name stays taken across
further join operations by sockets whose own (first) registry entry does
not hold it. -/
theorem c1_join_unique (pidOf : SocketId → PeerId) (st : SrvState) (sid : SocketId)
    (pid : PeerId) (m : JoinMsg) :
    (nameTaken st m.name = true →
      SockC.handleJoin st sid pid (some m)
        = .ok (st, [Emit.joinError sid "الاسم مستخدم بالفعل"])) ∧
    (nameTaken st m.name = false →
      ∃ st' ems, SockC.handleJoin st sid pid (some m) = .ok (st', ems) ∧
        (pid, m.name) ∈ rosterPairs st' ∧
        Emit.peerList sid (rosterPairs st') ∈ ems ∧
        nameTaken st' m.name = true) ∧
    (nameTaken st m.name = true →
      SockB.handleJoin st sid pid (some m)
        = .ok (st, [Emit.joinError sid "الاسم مستخدم بالفعل. اختر اسماً آخر."])) ∧
    (nameTaken st m.name = false →
      ∃ st' ems, SockB.handleJoin st sid pid (some m) = .ok (st', ems) ∧
        st' = SockC.joinOkState st sid pid m.name ∧
        (pid, m.name) ∈ rosterPairs st' ∧
        Emit.peerList sid (rosterPairs st') ∈ ems ∧
        nameTaken st' m.name = true) ∧
    (∀ sid2 name2, nameTaken st m.name = true →
      (∀ p, getA st.clients sid2 ≠ some (p, m.name)) →
      nameTaken (regStep pidOf st (.join sid2 name2)) m.name = true) := by
  have hcaller : (pid, m.name) ∈ rosterPairs (SockC.joinOkState st sid pid m.name) :=
    List.mem_map.mpr ⟨(sid, pid, m.name), self_mem_setA _ _ _, rfl⟩
  have htakenAfter : nameTaken (SockC.joinOkState st sid pid m.name) m.name = true :=
    (nameTaken_iff _ _).mpr
      (List.mem_map.mpr ⟨(sid, pid, m.name), self_mem_setA _ _ _, rfl⟩)
  refine ⟨fun h => by simp [SockC.handleJoin, h], ?_, fun h => by simp [SockB.handleJoin, h],
    ?_, ?_⟩
  · intro h
    refine ⟨SockC.joinOkState st sid pid m.name, SockC.joinOkEmits st sid pid m.name,
      by simp [SockC.handleJoin, h], hcaller, ?_, htakenAfter⟩
    exact List.mem_append.mpr (Or.inl (List.mem_append.mpr (Or.inl (List.mem_singleton.mpr rfl))))
  · intro h
    refine ⟨SockC.joinOkState st sid pid m.name,
      [Emit.peerList sid (rosterPairs (SockC.joinOkState st sid pid m.name))]
        ++ (st.conns.filter (fun t => t ≠ sid)).map (fun t => Emit.peerJoined t pid m.name)
        ++ st.conns.map
            (fun t => Emit.presencePairs t (rosterPairs (SockC.joinOkState st sid pid m.name))),
      by simp [SockB.handleJoin, SockC.joinOkState, h], rfl, hcaller, ?_, htakenAfter⟩
    exact List.mem_append.mpr (Or.inl (List.mem_append.mpr (Or.inl (List.mem_singleton.mpr rfl))))
  · intro sid2 name2 htaken hown
    by_cases h2 : nameTaken st name2
    · rw [regStep_join_taken h2]
      exact htaken
    · rw [regStep_join_free (by simpa using h2)]
      obtain ⟨e, he, hname⟩ := List.mem_map.mp ((nameTaken_iff st m.name).mp htaken)
      refine (nameTaken_iff _ _).mpr (List.mem_map.mpr ⟨e, ?_, hname⟩)
      refine mem_setA_of_mem he ?_
      intro hc
      exact hown e.2.1 (by rw [hc, show e.2 = (e.2.1, e.2.2) from rfl, hname])

/-- Closed witness for C1 (amended): in `stA1` a second join requesting
"Ali" is refused without mutation by both checking variants, and the name
stays taken after a further join by socket 1 under "Azzo". -/
theorem c1_join_unique_witness :
    SockC.handleJoin stA1 1 101 (some ⟨some "Ali"⟩)
      = .ok (stA1, [Emit.joinError 1 "الاسم مستخدم بالفعل"]) ∧
    SockB.handleJoin stA1 1 101 (some ⟨some "Ali"⟩)
      = .ok (stA1, [Emit.joinError 1 "الاسم مستخدم بالفعل. اختر اسماً آخر."]) ∧
    nameTaken (regStep wPid stA1 (.join 1 (some "Azzo"))) (some "Ali") = true :=
  ⟨(c1_join_unique wPid stA1 1 101 ⟨some "Ali"⟩).1 (by decide),
   (c1_join_unique wPid stA1 1 101 ⟨some "Ali"⟩).2.2.1 (by decide),
   (c1_join_unique wPid stA1 1 101 ⟨some "Ali"⟩).2.2.2.2 1 (some "Azzo") (by decide)
     (fun p h => by simp [stA1, getA] at h)⟩

/-- C3 is refuted by the code: a `signal` whose payload carries a
resolvable target but no `data` field makes the presence-watcher
handler's logging expression read `data.candidate` of `undefined` and
throw, and a `join`, `mute` or `signal` event whose payload is absent
throws while destructuring the handler argument, instead of being dropped
defensively. -/
theorem c3_malformed_throws :
    SockC.handleSignal stC3 100 (some ⟨some 200, none⟩) = .error () ∧
    SockC.handleJoin stC3 0 100 none = .error () ∧
    SockC.handleMute stC3 0 100 none = .error () ∧
    SockA.handleSignal stC3 100 none = .error () := by
  refine ⟨by decide, rfl, rfl, rfl⟩

/-- C4: a `mute` message from a joined session is rebroadcast as
`{identity, muted}` to every other joined session (indeed to every other
connected socket), the sender receives nothing, the identity attached is
the sender's server-assigned one, and the registry is unchanged. -/
theorem c4_mute_broadcast (st : SrvState) (sid : SocketId) (pid : PeerId)
    (n : Option String) (m : MuteMsg)
    (_hjoined : getA st.clients sid = some (pid, n))
    (hconn : ∀ e ∈ st.clients, e.1 ∈ st.conns) :
    SockC.handleMute st sid pid (some m) = .ok (st, SockC.muteEmits st sid pid m.muted) ∧
    (∀ e ∈ st.clients, e.1 ≠ sid →
      Emit.muteOut e.1 pid m.muted ∈ SockC.muteEmits st sid pid m.muted) ∧
    (∀ t p mu, Emit.muteOut t p mu ∈ SockC.muteEmits st sid pid m.muted →
      t ≠ sid ∧ p = pid ∧ mu = m.muted) := by
  refine ⟨rfl, ?_, ?_⟩
  · intro e he hne
    have hf : e.1 ∈ st.conns.filter (fun t => t ≠ sid) :=
      List.mem_filter.mpr ⟨hconn e he, by simpa using hne⟩
    exact List.mem_map.mpr ⟨e.1, hf, rfl⟩
  · intro t p mu hmem
    obtain ⟨x, hx, he⟩ := List.mem_map.mp hmem
    obtain ⟨_, hxne⟩ := List.mem_filter.mp hx
    cases he
    exact ⟨by simpa using hxne, rfl, rfl⟩

/-- Closed witness for C4: in `stB1after`, socket 1 (identity 101, joined
as "Azzo") announces muted; the other joined socket 0 receives the
broadcast. -/
theorem c4_mute_broadcast_witness :
    Emit.muteOut 0 101 (some true) ∈ SockC.muteEmits stB1after 1 101 (some true) :=
  (c4_mute_broadcast stB1after 1 101 (some "Azzo") ⟨some true⟩ (by decide) (by decide)).2.1
    (0, 100, some "Ali") (by decide) (by decide)

/-- C7: after the disconnect of a joined session, its identity no longer
resolves through `Lookup`, its name is freed, and an immediately
subsequent join by any session requesting that name succeeds: the handler
stores the new entry and emits no NameTaken error. -/
theorem c7_leave_frees (pidOf : SocketId → PeerId) (l : List Op) (sid : SocketId)
    (pid : PeerId) (n : Option String)
    (hmem : getA (run pidOf l).clients sid = some (pid, n)) :
    lookup (SockC.handleDisconnect (run pidOf l) sid).1 pid = none ∧
    nameTaken (SockC.handleDisconnect (run pidOf l) sid).1 n = false ∧
    ∀ sid2 pid2,
      SockC.handleJoin (SockC.handleDisconnect (run pidOf l) sid).1 sid2 pid2 (some ⟨n⟩)
        = .ok (SockC.joinOkState (SockC.handleDisconnect (run pidOf l) sid).1 sid2 pid2 n,
               SockC.joinOkEmits (SockC.handleDisconnect (run pidOf l) sid).1 sid2 pid2 n) ∧
      getA (SockC.joinOkState (SockC.handleDisconnect (run pidOf l) sid).1 sid2 pid2 n).clients
          sid2 = some (pid2, n) ∧
      ∀ msg, Emit.joinError sid2 msg
        ∉ SockC.joinOkEmits (SockC.handleDisconnect (run pidOf l) sid).1 sid2 pid2 n := by
  have hinv := inv_run pidOf l
  have hdis : (SockC.handleDisconnect (run pidOf l) sid).1 =
      { run pidOf l with
          clients := delA (run pidOf l).clients sid,
          peerToSocket := delA (run pidOf l).peerToSocket pid,
          watchers := (run pidOf l).watchers.erase sid } := by
    simp [SockC.handleDisconnect, hmem]
  have hfree : nameTaken (SockC.handleDisconnect (run pidOf l) sid).1 n = false := by
    rw [hdis]
    have hnot : n ∉ namesOf (delA (run pidOf l).clients sid) :=
      namesOf_delA_not_mem hinv.names hmem
    cases hv : nameTaken { run pidOf l with
        clients := delA (run pidOf l).clients sid,
        peerToSocket := delA (run pidOf l).peerToSocket pid,
        watchers := (run pidOf l).watchers.erase sid } n with
    | false => rfl
    | true => exact absurd ((nameTaken_iff _ _).mp hv) hnot
  refine ⟨?_, hfree, ?_⟩
  · rw [hdis]
    exact getA_delA_self _ _ hinv.pts
  · intro sid2 pid2
    refine ⟨by simp [SockC.handleJoin, hfree], getA_setA_self _ _ _, ?_⟩
    intro msg
    simp [SockC.joinOkEmits, List.mem_append, List.mem_map]

/-- Closed witness for C7: after "Ali" (socket 0, identity 100)
disconnects from the run of `wOps`, identity 100 no longer resolves and
the freed name "Ali" is available again. -/
theorem c7_leave_frees_witness :
    lookup (SockC.handleDisconnect (run wPid wOps) 0).1 100 = none ∧
    nameTaken (SockC.handleDisconnect (run wPid wOps) 0).1 (some "Ali") = false :=
  ⟨(c7_leave_frees wPid wOps 0 100 (some "Ali") (by decide)).1,
   (c7_leave_frees wPid wOps 0 100 (some "Ali") (by decide)).2.1⟩

/-- C10: the `from` field of every relayed signal equals the sender's
server-assigned identity, independent of the client-supplied payload: any
delivery from the handler carries `sender = pid` and the payload
unchanged, so two messages from the same connection — whatever their
payloads — are delivered with the same `from` value. -/
theorem c10_sender_not_spoofable (st : SrvState) (pid : PeerId) (m1 m2 : SignalMsg)
    (st1 st2 : SrvState) (ems1 ems2 : List Emit)
    (h1 : SockA.handleSignal st pid (some m1) = .ok (st1, ems1))
    (h2 : SockA.handleSignal st pid (some m2) = .ok (st2, ems2)) :
    (∀ t s d, Emit.signalOut t s d ∈ ems1 → s = pid ∧ d = m1.data) ∧
    (∀ t1 s1 d1 t2 s2 d2, Emit.signalOut t1 s1 d1 ∈ ems1 →
      Emit.signalOut t2 s2 d2 ∈ ems2 → s1 = s2) := by
  have key : ∀ (m : SignalMsg) (stx : SrvState) (emsx : List Emit),
      SockA.handleSignal st pid (some m) = .ok (stx, emsx) →
      ∀ t s d, Emit.signalOut t s d ∈ emsx → s = pid ∧ d = m.data := by
    intro m stx emsx h t s d hmem
    simp only [SockA.handleSignal] at h
    cases hres : m.targetPeerId.bind (fun tp => getA st.peerToSocket tp) with
    | some tsid =>
      rw [hres] at h
      simp only [Except.ok.injEq, Prod.mk.injEq] at h
      rw [← h.2] at hmem
      simp only [List.mem_singleton, Emit.signalOut.injEq] at hmem
      exact ⟨hmem.2.1, hmem.2.2⟩
    | none =>
      rw [hres] at h
      simp only [Except.ok.injEq, Prod.mk.injEq] at h
      rw [← h.2] at hmem
      simp at hmem
  refine ⟨key m1 st1 ems1 h1, ?_⟩
  intro t1 s1 d1 t2 s2 d2 ha hb
  exact ((key m1 st1 ems1 h1 t1 s1 d1 ha).1).trans ((key m2 st2 ems2 h2 t2 s2 d2 hb).1).symm

/-- Closed witness for C10: the delivery produced for a signal from the
connection with identity 101 carries `from = 101` and the payload `dW1`
unchanged, even with a second, differently crafted payload in flight. -/
theorem c10_sender_not_spoofable_witness :
    (101 : PeerId) = 101 ∧ (some dW1 : Option SigData) = some dW1 :=
  (c10_sender_not_spoofable stA1 101 ⟨some 100, some dW1⟩ ⟨some 100, some dW2⟩
    stA1 stA1 [Emit.signalOut 0 101 (some dW1)] [Emit.signalOut 0 101 (some dW2)]
    (by decide) (by decide)).1 0 101 (some dW1) (by decide)

/-- Counterexample for C9 as stated: in the module-level variant, a
successful join broadcasts the `presence` event to every connected
socket — here socket 0, which never subscribed to anything — and its
payload carries identity+name pairs, not names only. -/
theorem c9_presence_counterexample :
    (0 ∉ stB1.watchers) ∧
    SockB.handleJoin stB1 1 101 (some ⟨some "Azzo"⟩) = .ok (stB1after, emsB1) ∧
    Emit.presencePairs 0 [(100, some "Ali"), (101, some "Azzo")] ∈ emsB1 := by
  refine ⟨by decide, by decide, by decide⟩

/-- C9 (amended): in the presence-watcher variant the `presence` feed is
delivered exactly to explicit subscribers and carries only names: it is
sent to a socket when it subscribes, to every watcher on a successful
join and on the disconnect of a joined session, it is withheld after
unsubscribing, and neither the mute nor the signal handler ever emits it;
in the module-level variant it is broadcast to all sockets with
identities included. -/
theorem c9_presence_watchers_only (st : SrvState) (sid : SocketId) (pid : PeerId)
    (m : JoinMsg) :
    (SockC.handleSub st sid
      = ({ st with watchers := insertNew st.watchers sid },
         [Emit.presenceNames sid (clientNames st)])) ∧
    (SockC.handleUnsub st sid = ({ st with watchers := st.watchers.erase sid }, [])) ∧
    (∀ st' ems, SockC.handleJoin st sid pid (some m) = .ok (st', ems) →
      (∀ w names, Emit.presenceNames w names ∈ ems →
        w ∈ st.watchers ∧ names = clientNames st') ∧
      (nameTaken st m.name = false →
        ∀ w ∈ st.watchers, Emit.presenceNames w (clientNames st') ∈ ems)) ∧
    (∀ w names, Emit.presenceNames w names ∈ (SockC.handleDisconnect st sid).2 →
      w ∈ st.watchers ∧ names = clientNames (SockC.handleDisconnect st sid).1) ∧
    (getA st.clients sid ≠ none →
      ∀ w ∈ st.watchers,
        Emit.presenceNames w (clientNames (SockC.handleDisconnect st sid).1)
          ∈ (SockC.handleDisconnect st sid).2) ∧
    (∀ mm st2 ems2, SockC.handleMute st sid pid mm = .ok (st2, ems2) →
      ∀ w names, Emit.presenceNames w names ∉ ems2) ∧
    (∀ sm st3 ems3, SockC.handleSignal st pid sm = .ok (st3, ems3) →
      ∀ w names, Emit.presenceNames w names ∉ ems3) := by
  refine ⟨rfl, rfl, ?_, ?_, ?_, ?_, ?_⟩
  · intro st' ems h
    by_cases htaken : nameTaken st m.name
    · simp only [SockC.handleJoin, if_pos htaken, Except.ok.injEq, Prod.mk.injEq] at h
      constructor
      · intro w names hw
        rw [← h.2] at hw
        simp at hw
      · intro hfalse
        rw [htaken] at hfalse
        cases hfalse
    · have hfalse : nameTaken st m.name = false := by simpa using htaken
      simp only [SockC.handleJoin, if_neg htaken, Except.ok.injEq, Prod.mk.injEq] at h
      constructor
      · intro w names hw
        rw [← h.2] at hw
        rw [← h.1]
        simp only [SockC.joinOkEmits, List.cons_append, List.nil_append, List.mem_cons,
          List.mem_append, List.mem_map] at hw
        rcases hw with hw | hw | hw
        · cases hw
        · obtain ⟨x, _, hx⟩ := hw
          cases hx
        · obtain ⟨x, hxw, hx⟩ := hw
          cases hx
          exact ⟨hxw, rfl⟩
      · intro _ w hwmem
        rw [← h.2]
        simp only [SockC.joinOkEmits, List.cons_append, List.nil_append, List.mem_cons,
          List.mem_append, List.mem_map]
        exact Or.inr (Or.inr ⟨w, hwmem, by rw [h.1]⟩)
  · intro w names hw
    cases hci : getA st.clients sid with
    | none =>
      rw [SockC.handleDisconnect] at hw
      rw [hci] at hw
      simp at hw
    | some ci =>
      rw [SockC.handleDisconnect] at hw ⊢
      rw [hci] at hw ⊢
      simp only [List.mem_append, List.mem_map] at hw
      rcases hw with hw | hw
      · obtain ⟨x, _, hx⟩ := hw
        cases hx
      · obtain ⟨x, hxw, hx⟩ := hw
        cases hx
        exact ⟨hxw, rfl⟩
  · intro hne w hwmem
    cases hci : getA st.clients sid with
    | none => exact absurd hci hne
    | some ci =>
      rw [SockC.handleDisconnect]
      rw [hci]
      simp only [List.mem_append, List.mem_map]
      exact Or.inr ⟨w, hwmem, rfl⟩
  · intro mm st2 ems2 h w names hw
    cases mm with
    | none => cases h
    | some mv =>
      simp only [SockC.handleMute, SockC.muteEmits, Except.ok.injEq, Prod.mk.injEq] at h
      rw [← h.2] at hw
      simp only [List.mem_map] at hw
      obtain ⟨x, _, hx⟩ := hw
      cases hx
  · intro sm st3 ems3 h w names hw
    cases sm with
    | none => cases h
    | some sv =>
      simp only [SockC.handleSignal] at h
      cases hres : sv.targetPeerId.bind (fun tp => getA st.peerToSocket tp) with
      | some tsid =>
        rw [hres] at h
        cases hdata : sv.data with
        | none => rw [hdata] at h; cases h
        | some d =>
          rw [hdata] at h
          simp only [Except.ok.injEq, Prod.mk.injEq] at h
          rw [← h.2] at hw
          simp at hw
      | none =>
        rw [hres] at h
        simp only [Except.ok.injEq, Prod.mk.injEq] at h
        rw [← h.2] at hw
        simp at hw

/-- Closed witness for C9 (amended): on `stW9`, where socket 0 is
subscribed, the successful join of socket 0 as "Ali" delivers the updated
name list to watcher 0. -/
theorem c9_presence_watchers_only_witness :
    Emit.presenceNames 0 (clientNames stW9after) ∈ emsW9 :=
  ((c9_presence_watchers_only stW9 0 100 ⟨some "Ali"⟩).2.2.1 stW9after emsW9
    (by decide)).2 (by decide) 0 (by decide)

end NexusVoice
